import Mathlib

/-!
Verification development for the SupaToolifyMCP discovery and invocation
pipeline. The TypeScript sources are shallowly embedded: JSON values carried
between the database RPC layer and the tool layer are modelled by a mutual
inductive value type, the zod validators by executable parsers returning
Option, the introspection loop by a fold over the listed objects, the tool
registration loop by a fold with duplicate-name rejection, and the per-call
handler by a pure function parameterized over the database outcomes.
-/

/- JSON-like runtime values exchanged with the database layer. JS numbers are
modelled as integers (no claim depends on fractional numbers); JS BigInt is a
separate constructor, matching the distinct runtime type the handler tests
with typeof. A JS undefined is modelled as an absent Option, never as a
JsonValue. -/
mutual
inductive JsonValue where
  | null
  | bool (b : Bool)
  | num (n : Int)
  | bigint (i : Int)
  | str (s : String)
  | arr (xs : JsonArr)
  | obj (fs : JsonObj)
inductive JsonArr where
  | nil
  | cons (x : JsonValue) (xs : JsonArr)
inductive JsonObj where
  | nil
  | cons (k : String) (x : JsonValue) (fs : JsonObj)
end

def JsonArr.ofList : List JsonValue → JsonArr
  | [] => .nil
  | x :: xs => .cons x (JsonArr.ofList xs)

def JsonObj.ofList : List (String × JsonValue) → JsonObj
  | [] => .nil
  | (k, x) :: fs => .cons k x (JsonObj.ofList fs)

/-- Membership of a value in a JSON array. -/
inductive ArrMem (x : JsonValue) : JsonArr → Prop
  | head {xs : JsonArr} : ArrMem x (.cons x xs)
  | tail {y : JsonValue} {xs : JsonArr} : ArrMem x xs → ArrMem x (.cons y xs)

/-- Membership of a key-value pair in a JSON object. -/
inductive ObjMem (k : String) (x : JsonValue) : JsonObj → Prop
  | head {fs : JsonObj} : ObjMem k x (.cons k x fs)
  | tail {k2 : String} {y : JsonValue} {fs : JsonObj} :
      ObjMem k x fs → ObjMem k x (.cons k2 y fs)

/-- Occurrence of a BigInt value anywhere inside a JSON tree. -/
inductive ContainsBigint (i : Int) : JsonValue → Prop
  | here : ContainsBigint i (.bigint i)
  | inArr {x : JsonValue} {xs : JsonArr} :
      ArrMem x xs → ContainsBigint i x → ContainsBigint i (.arr xs)
  | inObj {k : String} {x : JsonValue} {fs : JsonObj} :
      ObjMem k x fs → ContainsBigint i x → ContainsBigint i (.obj fs)

/-- Occurrence of a string value anywhere inside a JSON tree. -/
inductive ContainsStr (s : String) : JsonValue → Prop
  | here : ContainsStr s (.str s)
  | inArr {x : JsonValue} {xs : JsonArr} :
      ArrMem x xs → ContainsStr s x → ContainsStr s (.arr xs)
  | inObj {k : String} {x : JsonValue} {fs : JsonObj} :
      ObjMem k x fs → ContainsStr s x → ContainsStr s (.obj fs)

/-! ## Exact decimal rendering of integers

Embeds the JS expression value.toString() on a BigInt, which yields the exact
base-10 representation with a leading minus sign for negative values. -/

def digitChar48 (d : Nat) : Char := Char.ofNat (48 + d)

def natDecimalRepr (n : Nat) : String :=
  if n = 0 then "0" else String.mk ((Nat.digits 10 n).reverse.map digitChar48)

def decimalRepr (i : Int) : String :=
  if i < 0 then "-" ++ natDecimalRepr (-i).toNat else natDecimalRepr i.toNat

/-- Value of a big-endian list of decimal digit characters. -/
def natValOfDigits (cs : List Char) : Nat :=
  cs.foldl (fun a c => a * 10 + (c.toNat - 48)) 0

/-- Decoder used to state that decimal encoding loses no information. -/
def intParse (s : String) : Option Int :=
  match s.data with
  | [] => none
  | c :: rest =>
    if c = '-' then
      if rest.isEmpty then none else some (-(natValOfDigits rest : Int))
    else some ((natValOfDigits (c :: rest) : Int))

/-! ## Public name derivation

Modelled from the spec: the source derives tool and parameter names with the
camelCase helper of the third-party change-case package, whose code is not
part of this repository. The spec states the derivation rule bit-exactly:
split the catalog identifier on underscores, lower-case the first segment,
capitalize the first letter of each subsequent segment leaving its remaining
characters unchanged, and concatenate. -/

def splitOnUnd : List Char → List (List Char)
  | [] => [[]]
  | c :: rest =>
    match splitOnUnd rest with
    | [] => [[]]
    | w :: ws => if c = '_' then [] :: w :: ws else (c :: w) :: ws

def capFirst : List Char → List Char
  | [] => []
  | c :: cs => c.toUpper :: cs

def camelCase (s : String) : String :=
  match splitOnUnd s.data with
  | [] => ""
  | first :: rest => String.mk (first.map Char.toLower ++ (rest.map capFirst).flatten)

/-! ## Raw catalog shapes (zod schemas from src introspection module) -/

inductive PgObjectType where
  | VIEW
  | FUNCTION
deriving DecidableEq

/-- Item shape of rpc_get_schema_objects results (schemaObjectSchema). -/
structure RawSchemaObject where
  object_name : String
  object_type : PgObjectType
  comment : Option String
deriving DecidableEq

/-- View column shape inside rpc_get_object_details (columnDetailSchema). -/
structure ColumnDetail where
  column_name : String
  data_type : String
  is_nullable : Bool
  comment : Option String
deriving DecidableEq

/-- Function parameter shape inside rpc_get_object_details
(parameterDetailSchema). The position field is z.number().int(); fractional
JS numbers are not modelled, so the integer check is vacuous here. -/
structure ParameterDetail where
  parameter_name : String
  data_type : String
  position : Int
deriving DecidableEq

/-- Combined rpc_get_object_details result shape (objectDetailsSchema); the
columns, parameters, return_type and returns_set fields are optional. -/
structure RawObjectDetails where
  object_name : String
  object_type : PgObjectType
  comment : Option String
  columns : Option (List ColumnDetail)
  parameters : Option (List ParameterDetail)
  return_type : Option String
  returns_set : Option Bool
deriving DecidableEq

/-! ## Internal tool definition format (src introspection module) -/

structure IntrospectedParameter where
  name : String
  toolParamName : String
  pgType : String
  description : Option String
deriving DecidableEq

structure IntrospectedColumn where
  name : String
  pgType : String
  isNullable : Bool
  description : Option String
deriving DecidableEq

structure IntrospectedToolDefinition where
  toolName : String
  pgName : String
  type : PgObjectType
  description : Option String
  parameters : List IntrospectedParameter
  pgReturnType : Option String
  pgReturnsSet : Option Bool
  columns : List IntrospectedColumn
deriving DecidableEq

/-! ## Zod validation, embedded as executable parsers over JsonValue -/

def lookupField : JsonObj → String → Option JsonValue
  | .nil, _ => none
  | .cons k x fs, key => if k = key then some x else lookupField fs key

def asString : Option JsonValue → Option String
  | some (.str s) => some s
  | _ => none

/-- z.string().nullable(): null parses to none, a string to some, anything
else (including an absent field) fails. -/
def asNullableString : Option JsonValue → Option (Option String)
  | some (.str s) => some (some s)
  | some .null => some none
  | _ => none

def asObjectType (v : Option JsonValue) : Option PgObjectType :=
  match v with
  | some (.str s) =>
    if s = "VIEW" then some .VIEW
    else if s = "FUNCTION" then some .FUNCTION
    else none
  | _ => none

def asBool : Option JsonValue → Option Bool
  | some (.bool b) => some b
  | _ => none

def asInt : Option JsonValue → Option Int
  | some (.num n) => some n
  | _ => none

/-- z.optional(...): an absent field parses to none; a present field must
satisfy the inner validator (an explicit null fails). -/
def asOptional (f : JsonValue → Option α) : Option JsonValue → Option (Option α)
  | none => some none
  | some v => (f v).map some

def parseColumnDetail (v : JsonValue) : Option ColumnDetail :=
  match v with
  | .obj fields => do
    let name ← asString (lookupField fields "column_name")
    let dt ← asString (lookupField fields "data_type")
    let nullable ← asBool (lookupField fields "is_nullable")
    let comment ← asNullableString (lookupField fields "comment")
    some ⟨name, dt, nullable, comment⟩
  | _ => none

def parseParameterDetail (v : JsonValue) : Option ParameterDetail :=
  match v with
  | .obj fields => do
    let name ← asString (lookupField fields "parameter_name")
    let dt ← asString (lookupField fields "data_type")
    let pos ← asInt (lookupField fields "position")
    some ⟨name, dt, pos⟩
  | _ => none

def parseArrWith (f : JsonValue → Option α) : JsonArr → Option (List α)
  | .nil => some []
  | .cons x xs => do
    let a ← f x
    let rest ← parseArrWith f xs
    some (a :: rest)

def parseColumnList (v : JsonValue) : Option (List ColumnDetail) :=
  match v with
  | .arr xs => parseArrWith parseColumnDetail xs
  | _ => none

def parseParameterList (v : JsonValue) : Option (List ParameterDetail) :=
  match v with
  | .arr xs => parseArrWith parseParameterDetail xs
  | _ => none

def parseSchemaObject (v : JsonValue) : Option RawSchemaObject :=
  match v with
  | .obj fields => do
    let name ← asString (lookupField fields "object_name")
    let otype ← asObjectType (lookupField fields "object_type")
    let comment ← asNullableString (lookupField fields "comment")
    some ⟨name, otype, comment⟩
  | _ => none

/-- z.array(schemaObjectSchema).safeParse applied to the raw result of
rpc_get_schema_objects. -/
def parseSchemaObjects (v : JsonValue) : Option (List RawSchemaObject) :=
  match v with
  | .arr xs => parseArrWith parseSchemaObject xs
  | _ => none

/-- objectDetailsSchema.safeParse applied to a rpc_get_object_details
result. -/
def parseObjectDetails (v : JsonValue) : Option RawObjectDetails :=
  match v with
  | .obj fields => do
    let name ← asString (lookupField fields "object_name")
    let otype ← asObjectType (lookupField fields "object_type")
    let comment ← asNullableString (lookupField fields "comment")
    let columns ← asOptional parseColumnList (lookupField fields "columns")
    let params ← asOptional parseParameterList (lookupField fields "parameters")
    let rt ← asOptional (fun x => asString (some x)) (lookupField fields "return_type")
    let rs ← asOptional (fun x => asBool (some x)) (lookupField fields "returns_set")
    some ⟨name, otype, comment, columns, params, rt, rs⟩
  | _ => none

/-! ## Type mapper (mapPgTypeToZod in the tool factory module) -/

/-- Semantic schema types produced by the mapper; each constructor stands for
one zod combination appearing in the source. -/
inductive ZodType where
  | zstring
  | zint
  | zbigint
  | znumber
  | zbool
  | zuuid
  | zdate
  | zdatetime
  | znumericString
  | zany
  | zarray (t : ZodType)
  | znullable (t : ZodType)
deriving DecidableEq

def startsWithUnderscoreChars : List Char → Bool
  | '_' :: _ => true
  | _ => false

def endsWithSqBrackets (cs : List Char) : Bool :=
  match cs.reverse with
  | ']' :: '[' :: _ => true
  | _ => false

/-- Maps a PostgreSQL type name and nullability to a semantic schema type,
following the switch in the source: array detection by leading underscore or
trailing bracket pair, normalization by lower-casing and removing spaces, a
fixed table of element type names, z.any() as fallback for unknown names. -/
def mapPgTypeToZod (pgType : String) (isNullable : Bool) : ZodType :=
  let cs := pgType.data
  let isArray := startsWithUnderscoreChars cs || endsWithSqBrackets cs
  let elementChars :=
    if isArray then
      if startsWithUnderscoreChars cs then cs.drop 1 else cs.take (cs.length - 2)
    else cs
  let normalizedElementType : String :=
    String.mk ((elementChars.map Char.toLower).filter (fun c => c ≠ ' '))
  let baseType : ZodType :=
    match normalizedElementType with
    | "text" | "varchar" | "char" | "name" | "bpchar" => .zstring
    | "int" | "integer" | "int4" | "smallint" | "serial" | "smallserial" => .zint
    | "bigint" | "bigserial" | "int8" => .zbigint
    | "numeric" | "decimal" => .znumericString
    | "real" | "float4" | "doubleprecision" | "float8" => .znumber
    | "boolean" | "bool" => .zbool
    | "uuid" => .zuuid
    | "date" => .zdate
    | "timestamp" | "timestamptz" => .zdatetime
    | "json" | "jsonb" => .zany
    | "bytea" => .zstring
    | _ => .zany
  let finalType := if isArray then ZodType.zarray baseType else baseType
  if isNullable then ZodType.znullable finalType else finalType

/-! ## Introspection (SchemaIntrospector in src) -/

/-- Outcome of one awaited callRpc invocation: the promise either rejects or
resolves with some JSON data. -/
inductive RpcOutcome where
  | throws (msg : String)
  | returns (v : JsonValue)

/-- The guard before validation in fetchObjectDetails: result must be truthy
and of typeof object, which in JS admits objects and arrays but not null. -/
def isJsObjectLike : JsonValue → Bool
  | .obj _ => true
  | .arr _ => true
  | _ => false

/-- fetchObjectDetails: a rejected call, a non-object result, or a failed
safeParse all yield null; a validated result is returned. -/
def fetchObjectDetails (outcome : RpcOutcome) : Option RawObjectDetails :=
  match outcome with
  | .throws _ => none
  | .returns v => if isJsObjectLike v then parseObjectDetails v else none

/-- transformToToolDefinition: camel-cases the object name, keeps the comment
as description, and fills the kind-specific fields. A FUNCTION branch is taken
only when the parameters field is present (any present array, even empty, is
truthy in JS); a VIEW branch only when columns is present; otherwise all
kind-specific fields stay empty. -/
def transformToToolDefinition (details : RawObjectDetails) : IntrospectedToolDefinition :=
  let toolName := camelCase details.object_name
  let description := details.comment
  match details.object_type, details.parameters, details.columns with
  | .FUNCTION, some ps, _ =>
    { toolName := toolName, pgName := details.object_name,
      type := details.object_type, description := description,
      parameters := ps.map (fun p =>
        { name := p.parameter_name, toolParamName := camelCase p.parameter_name,
          pgType := p.data_type, description := description }),
      pgReturnType := details.return_type, pgReturnsSet := details.returns_set,
      columns := [] }
  | .VIEW, _, some cs =>
    { toolName := toolName, pgName := details.object_name,
      type := details.object_type, description := description,
      parameters := [], pgReturnType := none, pgReturnsSet := none,
      columns := cs.map (fun c =>
        { name := c.column_name, pgType := c.data_type,
          isNullable := c.is_nullable, description := c.comment }) }
  | _, _, _ =>
    { toolName := toolName, pgName := details.object_name,
      type := details.object_type, description := description,
      parameters := [], pgReturnType := none, pgReturnsSet := none,
      columns := [] }

/-- introspectSchema, parameterized over the outcome of the initial
rpc_get_schema_objects call and over the per-object rpc_get_object_details
outcomes. Every return path of the source resolves the promise, so the
codomain marks them all as ok; the source never rejects after the initial
try blocks (a rejected listing call and a failed listing parse both resolve
with an empty array). -/
def introspectSchema (listOutcome : RpcOutcome)
    (detailOutcome : String → PgObjectType → RpcOutcome) :
    Except String (List IntrospectedToolDefinition) :=
  match listOutcome with
  | .throws _ => .ok []
  | .returns v =>
    match parseSchemaObjects v with
    | none => .ok []
    | some rawObjects =>
      .ok (rawObjects.foldl (fun acc obj =>
        match fetchObjectDetails (detailOutcome obj.object_name obj.object_type) with
        | none => acc
        | some details => acc ++ [transformToToolDefinition details]) [])

/-! ## Tool factory (MCPToolFactory in src) -/

/-- One property of a generated zod input schema shape: the mapped type plus
an optional attached description (zodType.describe). -/
structure SchemaProperty where
  ptype : ZodType
  description : Option String
deriving DecidableEq

/-- generateInputSchemaShape: one property per parameter, keyed by the
camel-cased parameter name, mapped with nullable set to false. The JS record
is modelled as an association list in iteration order. -/
def generateInputSchemaShape (parameters : List IntrospectedParameter) :
    List (String × SchemaProperty) :=
  parameters.map (fun p =>
    (p.toolParamName, ⟨mapPgTypeToZod p.pgType false, p.description⟩))

/-- A tool as registered with the MCP server: public name, optional
description, input schema shape, and the definition its handler closes
over. -/
structure RegisteredTool where
  name : String
  description : Option String
  inputSchema : List (String × SchemaProperty)
  source : IntrospectedToolDefinition
deriving DecidableEq

def buildTool (defn : IntrospectedToolDefinition) : RegisteredTool :=
  { name := defn.toolName, description := defn.description,
    inputSchema :=
      match defn.type with
      | .FUNCTION => generateInputSchemaShape defn.parameters
      | .VIEW => [],
    source := defn }

/-- Modelled from the spec: the server.tool call of the MCP SDK (not part of
this repository) rejects a second registration under an existing name instead
of overwriting the first one, as the spec states for name collisions. -/
def registerOne (reg : List RegisteredTool) (t : RegisteredTool) :
    Except String (List RegisteredTool) :=
  if reg.any (fun r => r.name == t.name) then
    .error ("Tool " ++ t.name ++ " is already registered")
  else .ok (reg ++ [t])

/-- registerTools: iterates the definitions; each registration is wrapped in
a try block, so a rejected registration is logged and skipped while the
remaining definitions are still processed. -/
def registerTools (reg : List RegisteredTool) :
    List IntrospectedToolDefinition → List RegisteredTool
  | [] => reg
  | d :: rest =>
    match registerOne reg (buildTool d) with
    | .ok reg2 => registerTools reg2 rest
    | .error _ => registerTools reg rest

/-! ## Invocation handler (the async handler inside registerTools) -/

/-- Outcome of the underlying database operation awaited by the handler: the
promise rejects, or resolves with a value that may be null (JsonValue.null)
or undefined (none). -/
inductive DbOutcome where
  | throws (msg : String)
  | returns (v : Option JsonValue)

/-- The rpcParams accumulation of the FUNCTION branch: for each declared
parameter, the value is forwarded under the original catalog name only when
the caller-supplied argument map has the camel-cased name as an own property;
absent parameters contribute no entry at all. The JS object is modelled as an
association list; first occurrence wins on lookup. -/
def buildRpcParams (parameters : List IntrospectedParameter)
    (args : List (String × JsonValue)) : List (String × JsonValue) :=
  parameters.filterMap (fun p =>
    (args.find? (fun a => a.1 == p.toolParamName)).map (fun kv => (p.name, kv.2)))

/-- The success text used when the raw result is undefined or null. -/
def noContentText (toolName : String) : String :=
  "Tool " ++ toolName ++ " executed successfully, returning no content."

/-! ## JSON.stringify(value, replacer, 2), split into the replacer pass and
the serializer -/

/- The replacer converts every BigInt value to its exact decimal string; all
other values pass through unchanged. -/
mutual
def applyBigintReplacer : JsonValue → JsonValue
  | .null => .null
  | .bool b => .bool b
  | .num n => .num n
  | .str s => .str s
  | .bigint i => .str (decimalRepr i)
  | .arr xs => .arr (replacerArr xs)
  | .obj fs => .obj (replacerObj fs)
def replacerArr : JsonArr → JsonArr
  | .nil => .nil
  | .cons x xs => .cons (applyBigintReplacer x) (replacerArr xs)
def replacerObj : JsonObj → JsonObj
  | .nil => .nil
  | .cons k x fs => .cons k (applyBigintReplacer x) (replacerObj fs)
end

/-- String escaping of the JSON serializer; the characters reachable in this
development (identifier letters, digits, spaces, punctuation of the fixed
messages) are covered exactly. -/
def escChar (c : Char) : List Char :=
  if c = '"' then ['\\', '"']
  else if c = '\\' then ['\\', '\\']
  else if c = '\n' then ['\\', 'n']
  else if c = '\r' then ['\\', 'r']
  else if c = '\t' then ['\\', 't']
  else [c]

def jsonEscape (s : String) : String := String.mk (s.data.map escChar).flatten

def jsonQuote (s : String) : String := "\"" ++ jsonEscape s ++ "\""

def indentOf (depth : Nat) : String := String.mk (List.replicate (2 * depth) ' ')

def joinSep (sep : String) : List String → String
  | [] => ""
  | [x] => x
  | x :: y :: rest => x ++ sep ++ joinSep sep (y :: rest)

/- Serializer with a two-space gap, as produced by JSON.stringify with indent
argument 2. A BigInt reaching the serializer would make JSON.stringify throw;
the replacer removes all BigInt nodes first, so that branch is unreachable in
every use below and is given an inert value. JS numbers are rendered in their
decimal form (only integral numbers are modelled). -/
mutual
def stringifyVal (depth : Nat) : JsonValue → String
  | .null => "null"
  | .bool b => if b then "true" else "false"
  | .num n => decimalRepr n
  | .bigint _ => ""
  | .str s => jsonQuote s
  | .arr .nil => "[]"
  | .arr (.cons x xs) =>
    "[\n" ++ indentOf (depth + 1) ++
      joinSep (",\n" ++ indentOf (depth + 1)) (stringifyArr (depth + 1) (.cons x xs)) ++
      "\n" ++ indentOf depth ++ "]"
  | .obj .nil => "\x7b\x7d"
  | .obj (.cons k x fs) =>
    "\x7b\n" ++ indentOf (depth + 1) ++
      joinSep (",\n" ++ indentOf (depth + 1)) (stringifyObj (depth + 1) (.cons k x fs)) ++
      "\n" ++ indentOf depth ++ "\x7d"
def stringifyArr (depth : Nat) : JsonArr → List String
  | .nil => []
  | .cons x xs => stringifyVal depth x :: stringifyArr depth xs
def stringifyObj (depth : Nat) : JsonObj → List String
  | .nil => []
  | .cons k x fs => (jsonQuote k ++ ": " ++ stringifyVal depth x) :: stringifyObj depth fs
end

/-! ## Handler result encoding -/

structure TextContent where
  text : String
deriving DecidableEq

/-- CallToolResult: the source returns an object without isError on success
and with isError set to true on failure. -/
structure CallToolResult where
  isError : Bool
  content : List TextContent
deriving DecidableEq

/-- The tail of the handler: a rejected database call becomes a tool-level
error result; an undefined or null raw result becomes the no-content success
text; any other raw result is serialized through the BigInt replacer. -/
def encodeOutcome (toolName : String) (outcome : DbOutcome) : CallToolResult :=
  match outcome with
  | .throws msg =>
    { isError := true, content := [⟨"Tool execution failed: " ++ msg⟩] }
  | .returns none =>
    { isError := false, content := [⟨noContentText toolName⟩] }
  | .returns (some .null) =>
    { isError := false, content := [⟨noContentText toolName⟩] }
  | .returns (some v) =>
    { isError := false, content := [⟨stringifyVal 0 (applyBigintReplacer v)⟩] }

/-- The handler registered for one tool, parameterized over the outcomes of
the data access surface: a VIEW issues an unfiltered read of its source view
and ignores the arguments; a FUNCTION forwards the translated argument record
to the underlying routine. -/
def toolHandler (defn : IntrospectedToolDefinition)
    (viewRead : String → DbOutcome)
    (rpcCall : String → List (String × JsonValue) → DbOutcome)
    (args : List (String × JsonValue)) : CallToolResult :=
  match defn.type with
  | .VIEW => encodeOutcome defn.toolName (viewRead defn.pgName)
  | .FUNCTION =>
    encodeOutcome defn.toolName
      (rpcCall defn.pgName (buildRpcParams defn.parameters args))

/-! ## Substring helpers (used to state that a payload does or does not
contain a marker text) -/

def charsPref : List Char → List Char → Bool
  | [], _ => true
  | _ :: _, [] => false
  | a :: pa, b :: pb => a == b && charsPref pa pb

def charsContain (pat : List Char) : List Char → Bool
  | [] => pat.isEmpty
  | c :: rest => charsPref pat (c :: rest) || charsContain pat rest

def strContainsText (s pat : String) : Bool := charsContain pat.data s.data

/-! ## Concrete sample data used by witnesses and counterexamples -/

def optStringJson : Option String → JsonValue
  | none => .null
  | some s => .str s

/-- Listing with one object whose function parameters have a position gap. -/
def gapListJson : JsonValue := .arr (.ofList [
  .obj (.ofList [("object_name", .str "gap_fn"),
    ("object_type", .str "FUNCTION"), ("comment", .null)])])

/-- Detail payload whose IN parameters sit at positions 1 and 3 (for example
because an OUT parameter occupies position 2 in the catalog). -/
def gapDetailJson : JsonValue := .obj (.ofList [
  ("object_name", .str "gap_fn"), ("object_type", .str "FUNCTION"),
  ("comment", .null),
  ("parameters", .arr (.ofList [
    .obj (.ofList [("parameter_name", .str "p_a"), ("data_type", .str "text"),
      ("position", .num 1)]),
    .obj (.ofList [("parameter_name", .str "p_b"), ("data_type", .str "text"),
      ("position", .num 3)])])),
  ("return_type", .str "int4"), ("returns_set", .bool false)])

/-- Listing of three objects; the middle one will deliver a malformed detail
payload. -/
def sampleListJson : JsonValue := .arr (.ofList [
  .obj (.ofList [("object_name", .str "active_user_profiles"),
    ("object_type", .str "VIEW"), ("comment", .str "Top profiles.")]),
  .obj (.ofList [("object_name", .str "broken_view"),
    ("object_type", .str "VIEW"), ("comment", .null)]),
  .obj (.ofList [("object_name", .str "add_note_to_user"),
    ("object_type", .str "FUNCTION"), ("comment", .null)])])

def sampleObjs : List RawSchemaObject :=
  [⟨"active_user_profiles", .VIEW, some "Top profiles."⟩,
   ⟨"broken_view", .VIEW, none⟩,
   ⟨"add_note_to_user", .FUNCTION, none⟩]

def sampleViewDetailJson : JsonValue := .obj (.ofList [
  ("object_name", .str "active_user_profiles"), ("object_type", .str "VIEW"),
  ("comment", .str "Top profiles."),
  ("columns", .arr (.ofList [
    .obj (.ofList [("column_name", .str "id"), ("data_type", .str "uuid"),
      ("is_nullable", .bool false), ("comment", .null)])]))])

def sampleFnDetailJson : JsonValue := .obj (.ofList [
  ("object_name", .str "add_note_to_user"), ("object_type", .str "FUNCTION"),
  ("comment", .null),
  ("parameters", .arr (.ofList [
    .obj (.ofList [("parameter_name", .str "p_user_id"),
      ("data_type", .str "uuid"), ("position", .num 1)])])),
  ("return_type", .str "jsonb"), ("returns_set", .bool false)])

def sampleDetailOutcome (name : String) (_ : PgObjectType) : RpcOutcome :=
  if name = "active_user_profiles" then .returns sampleViewDetailJson
  else if name = "broken_view" then .returns (.str "malformed")
  else .returns sampleFnDetailJson

def sampleViewDefn : IntrospectedToolDefinition :=
  ⟨"activeUserProfiles", "active_user_profiles", .VIEW, none, [], none, none, []⟩

def sampleFnParams : List IntrospectedParameter :=
  [⟨"p_user_id", "pUserId", "uuid", none⟩,
   ⟨"p_note_text", "pNoteText", "text", none⟩]

def sampleArgs : List (String × JsonValue) := [("pUserId", .str "u1")]

/-- Two definitions normalizing to the same public name (user_info and
user__info both camel-case to userInfo) plus one unrelated definition. -/
def sampleDefDupA : IntrospectedToolDefinition :=
  ⟨"userInfo", "user_info", .VIEW, some "First one.", [], none, none, []⟩

def sampleDefDupB : IntrospectedToolDefinition :=
  ⟨"userInfo", "user__info", .FUNCTION, none, [], none, none, []⟩

def sampleDefOther : IntrospectedToolDefinition :=
  ⟨"addNoteToUser", "add_note_to_user", .FUNCTION, none, [], none, none, []⟩

def sampleDefs : List IntrospectedToolDefinition :=
  [sampleDefDupA, sampleDefDupB, sampleDefOther]

/-! ## Theorems -/

/-- C1 counterexample: when the initial rpc_get_schema_objects call rejects,
introspectSchema does not fail; it resolves successfully and produces a
ToolDefinition list (the empty one), contradicting the claim that the failure
is surfaced to the caller and that no list is produced. -/
theorem c1_counterexample :
    introspectSchema (.throws "connection refused") (fun _ _ => .throws "not reached")
      = .ok [] := rfl

/-- C1 amended: if the initial object-listing call fails, or its result does
not parse as an array of schema objects, introspectSchema logs the problem
and resolves successfully with an empty ToolDefinition list; the failure is
swallowed rather than reported to the caller, and no tools are served from
that discovery pass. -/
theorem c1_amended_swallows_listing_failure :
    ∀ (msg : String) (f : String → PgObjectType → RpcOutcome) (v : JsonValue),
      introspectSchema (.throws msg) f = .ok [] ∧
      (parseSchemaObjects v = none → introspectSchema (.returns v) f = .ok []) := by
  intro msg f v
  constructor
  · rfl
  · intro h
    simp [introspectSchema, h]

theorem c1_amended_witness :
    introspectSchema (.throws "boom") (fun _ _ => .throws "x") = .ok [] ∧
    introspectSchema (.returns (.str "nope")) (fun _ _ => .throws "x") = .ok [] :=
  ⟨(c1_amended_swallows_listing_failure "boom" (fun _ _ => .throws "x") (.str "nope")).1,
   (c1_amended_swallows_listing_failure "boom" (fun _ _ => .throws "x") (.str "nope")).2 rfl⟩

/-- C2: the mapper evaluated at the failing input. The SQL helpers deliver
udt_name, so a smallint column or parameter arrives as the literal type name
int2; the switch matches only the alias smallint (its comment even reads
int2), so the actual catalog name falls through to the z.any() fallback
instead of the documented integer mapping. -/
theorem c2_int2_maps_to_fallback :
    mapPgTypeToZod "int2" false = ZodType.zany ∧
    mapPgTypeToZod "smallint" false = ZodType.zint ∧
    ZodType.zany ≠ ZodType.zint := by
  exact ⟨by decide, by decide, by decide⟩

/-- C3: the public tool name of every transformed definition is the
camel-case of the catalog identifier, where camelCase implements exactly the
stated rule (split on underscores, lower-case the first segment, capitalize
the first letter of each later segment leaving its remaining characters
unchanged, concatenate), and the two documented examples hold bit-exactly. -/
theorem c3_name_derivation :
    (∀ (d : RawObjectDetails),
      (transformToToolDefinition d).toolName = camelCase d.object_name) ∧
    camelCase "active_user_profiles" = "activeUserProfiles" ∧
    camelCase "add_note_to_user" = "addNoteToUser" := by
  refine ⟨?_, by decide, by decide⟩
  intro d
  obtain ⟨n, ot, c, cols, ps, rt, rs⟩ := d
  cases ot <;> cases ps <;> cases cols <;> rfl

/-- C4 counterexample: a FUNCTION detail payload whose IN parameters sit at
positions 1 and 3 (a gap) is still validated and turned into a tool with both
parameters; introspection surfaces no error for the object. -/
theorem c4_counterexample :
    introspectSchema (.returns gapListJson) (fun _ _ => .returns gapDetailJson) =
      .ok [{ toolName := "gapFn", pgName := "gap_fn", type := .FUNCTION,
             description := none,
             parameters := [⟨"p_a", "pA", "text", none⟩, ⟨"p_b", "pB", "text", none⟩],
             pgReturnType := some "int4", pgReturnsSet := some false,
             columns := [] }] := by rfl

/-- C4 amended: for every FUNCTION-derived ToolDefinition the parameters list
is exactly the fetched list mapped in order (the catalog query orders by
position); the transformer performs no position-based sorting, no gap or
contiguity check, and never fails for that reason — a gapped payload still
becomes a tool, and discovery is not crashed. -/
theorem c4_amended_order_preserved :
    ∀ (name : String) (comment : Option String) (cols : Option (List ColumnDetail))
      (ps : List ParameterDetail) (rt : Option String) (rs : Option Bool),
      transformToToolDefinition ⟨name, .FUNCTION, comment, cols, some ps, rt, rs⟩ =
        { toolName := camelCase name, pgName := name, type := .FUNCTION,
          description := comment,
          parameters := ps.map (fun p =>
            ⟨p.parameter_name, camelCase p.parameter_name, p.data_type, comment⟩),
          pgReturnType := rt, pgReturnsSet := rs, columns := [] } := by
  intro name comment cols ps rt rs
  rfl

/-- C10: a FUNCTION detail payload carrying only the three common fields
passes the objectDetailsSchema validation (columns, parameters, return_type
and returns_set are optional), passes the fetch guard, and transforms into a
zero-input ToolDefinition with empty parameters and no return type, instead
of being skipped as malformed. -/
theorem c10_minimal_function_detail :
    ∀ (name : String) (comment : Option String),
      parseObjectDetails (.obj (.ofList [("object_name", .str name),
          ("object_type", .str "FUNCTION"), ("comment", optStringJson comment)])) =
        some ⟨name, .FUNCTION, comment, none, none, none, none⟩ ∧
      fetchObjectDetails (.returns (.obj (.ofList [("object_name", .str name),
          ("object_type", .str "FUNCTION"), ("comment", optStringJson comment)]))) =
        some ⟨name, .FUNCTION, comment, none, none, none, none⟩ ∧
      transformToToolDefinition ⟨name, .FUNCTION, comment, none, none, none, none⟩ =
        ⟨camelCase name, name, .FUNCTION, comment, [], none, none, []⟩ := by
  intro name comment
  refine ⟨?_, ?_, rfl⟩ <;> cases comment <;> rfl

/-- Auxiliary: the introspection fold over listed objects accumulates exactly
the transforms of the objects whose detail fetch succeeded and validated. -/
theorem introspect_foldl_eq_filterMap (objs : List RawSchemaObject)
    (f : String → PgObjectType → RpcOutcome) (acc : List IntrospectedToolDefinition) :
    objs.foldl (fun acc2 obj =>
        match fetchObjectDetails (f obj.object_name obj.object_type) with
        | none => acc2
        | some details => acc2 ++ [transformToToolDefinition details]) acc =
      acc ++ objs.filterMap (fun obj =>
        (fetchObjectDetails (f obj.object_name obj.object_type)).map
          transformToToolDefinition) := by
  induction objs generalizing acc with
  | nil => simp
  | cons o rest ih =>
    simp only [List.foldl_cons, List.filterMap_cons]
    cases fetchObjectDetails (f o.object_name o.object_type) with
    | none => simp [ih]
    | some d => simp [ih, List.append_assoc]

/-- C6: whenever the listing parses, discovery returns ok with exactly the
transforms of the objects whose per-object detail fetch succeeded and
validated; a malformed or failing detail fetch removes only that object, and
introspectSchema never throws. -/
theorem c6_per_object_isolation :
    ∀ (v : JsonValue) (objs : List RawSchemaObject)
      (f : String → PgObjectType → RpcOutcome),
      parseSchemaObjects v = some objs →
      introspectSchema (.returns v) f =
        .ok (objs.filterMap (fun obj =>
          (fetchObjectDetails (f obj.object_name obj.object_type)).map
            transformToToolDefinition)) := by
  intro v objs f h
  simp [introspectSchema, h, introspect_foldl_eq_filterMap]

theorem c6_witness :
    introspectSchema (.returns sampleListJson) sampleDetailOutcome =
      .ok (sampleObjs.filterMap (fun obj =>
        (fetchObjectDetails (sampleDetailOutcome obj.object_name obj.object_type)).map
          transformToToolDefinition)) ∧
    introspectSchema (.returns sampleListJson) sampleDetailOutcome =
      .ok [⟨"activeUserProfiles", "active_user_profiles", .VIEW,
              some "Top profiles.", [], none, none, [⟨"id", "uuid", false, none⟩]⟩,
           ⟨"addNoteToUser", "add_note_to_user", .FUNCTION, none,
              [⟨"p_user_id", "pUserId", "uuid", none⟩], some "jsonb", some false, []⟩] :=
  ⟨c6_per_object_isolation sampleListJson sampleObjs sampleDetailOutcome (by rfl),
   by rfl⟩

/-- C8 counterexample: a VIEW tool whose underlying read succeeds with an
empty row set (the database wrapper turns a null data field into an empty
array) is serialized as the two-character text of an empty JSON array, not as
the explicit no-content marker; the marker appears only for absent
(undefined or null) raw results. -/
theorem c8_counterexample :
    toolHandler sampleViewDefn (fun _ => .returns (some (.arr .nil)))
        (fun _ _ => .throws "unused") [] =
      { isError := false, content := [⟨"[]"⟩] } ∧
    strContainsText "[]" (noContentText sampleViewDefn.toolName) = false := by
  exact ⟨by decide, by decide⟩

/-- C8 amended: when the underlying read or call succeeds, the handler always
returns a success (non-error) payload; the explicit no-content marker is used
exactly when the raw result is absent (undefined or null), while present but
empty results are serialized normally. -/
theorem c8_amended_no_content_marker :
    ∀ (tname : String) (r : Option JsonValue),
      (r = none ∨ r = some .null →
        encodeOutcome tname (.returns r) = ⟨false, [⟨noContentText tname⟩]⟩) ∧
      (encodeOutcome tname (.returns r)).isError = false := by
  intro tname r
  constructor
  · rintro (rfl | rfl) <;> rfl
  · rcases r with _ | v
    · rfl
    · cases v <;> rfl

theorem c8_amended_witness :
    encodeOutcome "addNoteToUser" (.returns none) =
      ⟨false, [⟨noContentText "addNoteToUser"⟩]⟩ ∧
    (encodeOutcome "addNoteToUser" (.returns (some .null))).isError = false :=
  ⟨(c8_amended_no_content_marker "addNoteToUser" none).1 (Or.inl rfl),
   (c8_amended_no_content_marker "addNoteToUser" (some .null)).2⟩

/-- C9: the argument record passed to the underlying routine contains exactly
the declared parameters whose public (camel-cased) name is present as a key
of the caller-supplied argument map, translated back to their catalog names;
a declared parameter absent from the argument map contributes no entry at all
(in particular no null or undefined placeholder), and the FUNCTION branch of
the handler forwards precisely this record to the call. -/
theorem c9_absent_params_omitted :
    ∀ (ps : List IntrospectedParameter) (args : List (String × JsonValue)),
      (∀ q, q ∈ buildRpcParams ps args →
        ∃ p, p ∈ ps ∧ ∃ kv, args.find? (fun a => a.1 == p.toolParamName) = some kv ∧
          q = (p.name, kv.2)) ∧
      (∀ p, p ∈ ps → ∀ kv,
        args.find? (fun a => a.1 == p.toolParamName) = some kv →
        (p.name, kv.2) ∈ buildRpcParams ps args) ∧
      (∀ p, p ∈ ps → (ps.map (fun x => x.name)).Nodup →
        args.find? (fun a => a.1 == p.toolParamName) = none →
        ∀ q, q ∈ buildRpcParams ps args → q.1 ≠ p.name) ∧
      (∀ (defn : IntrospectedToolDefinition) (vr : String → DbOutcome)
          (rc : String → List (String × JsonValue) → DbOutcome),
        defn.type = .FUNCTION →
        toolHandler defn vr rc args =
          encodeOutcome defn.toolName
            (rc defn.pgName (buildRpcParams defn.parameters args))) := by
  intro ps args
  refine ⟨?_, ?_, ?_, ?_⟩
  · intro q hq
    simp only [buildRpcParams, List.mem_filterMap, Option.map_eq_some'] at hq
    obtain ⟨p, hp, kv, hkv, hq2⟩ := hq
    exact ⟨p, hp, kv, hkv, hq2.symm⟩
  · intro p hp kv hkv
    simp only [buildRpcParams, List.mem_filterMap]
    exact ⟨p, hp, by rw [hkv]; rfl⟩
  · intro p hp hnd hnone q hq heq
    simp only [buildRpcParams, List.mem_filterMap, Option.map_eq_some'] at hq
    obtain ⟨p2, hp2, kv, hkv, hq2⟩ := hq
    have hn2 : p2.name = p.name := by rw [← heq, ← hq2]
    have : p2 = p :=
      List.inj_on_of_nodup_map hnd hp2 hp hn2
    rw [this] at hkv
    rw [hnone] at hkv
    cases hkv
  · intro defn vr rc ht
    obtain ⟨tn, pn, ty, ds, prm, rt2, rs2, cl⟩ := defn
    simp only at ht
    subst ht
    rfl

theorem c9_witness :
    ("p_user_id", JsonValue.str "u1") ∈ buildRpcParams sampleFnParams sampleArgs ∧
    ¬ (("p_note_text", JsonValue.str "zzz") ∈ buildRpcParams sampleFnParams sampleArgs) := by
  constructor
  · exact (c9_absent_params_omitted sampleFnParams sampleArgs).2.1
      ⟨"p_user_id", "pUserId", "uuid", none⟩ (by decide) ("pUserId", .str "u1") rfl
  · intro h
    exact (c9_absent_params_omitted sampleFnParams sampleArgs).2.2.1
      ⟨"p_note_text", "pNoteText", "text", none⟩ (by decide) (by decide) rfl
      ("p_note_text", JsonValue.str "zzz") h rfl

/-- Auxiliary: one unfolding step of the registration loop. -/
theorem registerTools_cons (reg : List RegisteredTool)
    (d : IntrospectedToolDefinition) (rest : List IntrospectedToolDefinition) :
    registerTools reg (d :: rest) =
      if reg.any (fun r => r.name == (buildTool d).name) then registerTools reg rest
      else registerTools (reg ++ [buildTool d]) rest := by
  simp only [registerTools, registerOne]
  by_cases h : reg.any (fun r => r.name == (buildTool d).name) <;> simp [h]

/-- Auxiliary: once a name is present in the registry, the registration loop
never changes the entries carrying that name. -/
theorem registerTools_filter_present :
    ∀ (defs : List IntrospectedToolDefinition) (reg : List RegisteredTool) (n : String),
      reg.any (fun r => r.name == n) = true →
      (registerTools reg defs).filter (fun t => t.name == n) =
        reg.filter (fun t => t.name == n) := by
  intro defs
  induction defs with
  | nil => intro reg n h; rfl
  | cons d rest ih =>
    intro reg n h
    rw [registerTools_cons]
    by_cases hd : reg.any (fun r => r.name == (buildTool d).name) = true
    · rw [if_pos hd]
      exact ih reg n h
    · rw [if_neg hd]
      have h2 : (reg ++ [buildTool d]).any (fun r => r.name == n) = true := by
        simp only [List.any_append, h, Bool.true_or]
      rw [ih _ n h2, List.filter_append]
      have hne : ((buildTool d).name == n) = false := by
        rcases hEq : ((buildTool d).name == n) with _ | _
        · rfl
        · exfalso
          have heq2 : (buildTool d).name = n := eq_of_beq hEq
          rw [← heq2] at h
          exact hd h
      simp [List.filter, hne]

/-- Auxiliary: if a name is absent from the registry, the entries carrying
that name after the loop are exactly the build of the first definition with
that tool name, or nothing when no definition carries it. -/
theorem registerTools_filter_absent :
    ∀ (defs : List IntrospectedToolDefinition) (reg : List RegisteredTool) (n : String),
      reg.any (fun r => r.name == n) = false →
      (registerTools reg defs).filter (fun t => t.name == n) =
        (match defs.find? (fun d => d.toolName == n) with
         | some d => [buildTool d]
         | none => []) := by
  intro defs
  induction defs with
  | nil =>
    intro reg n h
    simp only [registerTools, List.find?_nil]
    rw [List.filter_eq_nil_iff]
    intro a ha
    have := List.any_eq_false.mp (by exact h) a ha
    simpa using this
  | cons d rest ih =>
    intro reg n h
    rw [registerTools_cons, List.find?_cons]
    have hbd : (buildTool d).name = d.toolName := rfl
    by_cases hdn : (d.toolName == n) = true
    · have hregd : reg.any (fun r => r.name == (buildTool d).name) = false := by
        rw [hbd, eq_of_beq hdn]
        exact h
      rw [hregd]
      simp only [Bool.false_eq_true, if_false]
      have h2 : (reg ++ [buildTool d]).any (fun r => r.name == n) = true := by
        simp only [List.any_append, List.any_cons, List.any_nil, hbd, hdn,
          Bool.or_true, Bool.or_false]
      rw [registerTools_filter_present rest _ n h2, List.filter_append]
      have hregn : reg.filter (fun t => t.name == n) = [] := by
        rw [List.filter_eq_nil_iff]
        intro a ha
        have := List.any_eq_false.mp (by exact h) a ha
        simpa using this
      rw [hregn, hdn]
      simp [List.filter, hbd, hdn]
    · have hdn2 : (d.toolName == n) = false := by
        rcases hx : (d.toolName == n) with _ | _
        · rfl
        · exact absurd hx hdn
      rw [hdn2]
      by_cases hreg : reg.any (fun r => r.name == (buildTool d).name) = true
      · rw [hreg, if_pos rfl]
        exact ih reg n h
      · have hreg2 : reg.any (fun r => r.name == (buildTool d).name) = false := by
          rcases hx : reg.any (fun r => r.name == (buildTool d).name) with _ | _
          · rfl
          · exact absurd hx hreg
        rw [hreg2]
        simp only [Bool.false_eq_true, if_false]
        have h3 : (reg ++ [buildTool d]).any (fun r => r.name == n) = false := by
          simp only [List.any_append, List.any_cons, List.any_nil, h, hbd, hdn2,
            Bool.or_false, Bool.false_or]
        exact ih _ n h3

/-- C5: when several ToolDefinitions normalize to the same public toolName,
the registry ends up with exactly one entry under that name, built from the
first definition carrying it in discovery order: the MCP server rejects the
later registration, the earlier tool stays registered, and every definition
with a distinct name is still represented (its name is always found). -/
theorem c5_collision_earlier_stands :
    ∀ (defs : List IntrospectedToolDefinition) (d : IntrospectedToolDefinition),
      d ∈ defs →
      ∃ d0, defs.find? (fun x => x.toolName == d.toolName) = some d0 ∧
        d0.toolName = d.toolName ∧
        (registerTools [] defs).filter (fun t => t.name == d.toolName) = [buildTool d0] := by
  intro defs d hd
  have habs : ([] : List RegisteredTool).any (fun r => r.name == d.toolName) = false := rfl
  have hfilt := registerTools_filter_absent defs [] d.toolName habs
  have hsome : (defs.find? (fun x => x.toolName == d.toolName)).isSome := by
    rw [List.find?_isSome]
    exact ⟨d, hd, by simp⟩
  obtain ⟨d0, hd0⟩ := Option.isSome_iff_exists.mp hsome
  have hp := List.find?_some hd0
  refine ⟨d0, hd0, eq_of_beq hp, ?_⟩
  rw [hfilt, hd0]

theorem c5_witness :
    (registerTools [] sampleDefs).filter (fun t => t.name == sampleDefDupB.toolName) =
      [buildTool sampleDefDupA] ∧
    (registerTools [] sampleDefs).filter (fun t => t.name == sampleDefOther.toolName) =
      [buildTool sampleDefOther] := by
  constructor
  · obtain ⟨d0, hfind, hname, hfilt⟩ :=
      c5_collision_earlier_stands sampleDefs sampleDefDupB (by decide)
    have hf2 : sampleDefs.find? (fun x => x.toolName == sampleDefDupB.toolName) =
        some sampleDefDupA := by decide
    rw [hf2] at hfind
    injection hfind with hinj
    rw [← hinj] at hfilt
    exact hfilt
  · obtain ⟨d0, hfind, hname, hfilt⟩ :=
      c5_collision_earlier_stands sampleDefs sampleDefOther (by decide)
    have hf2 : sampleDefs.find? (fun x => x.toolName == sampleDefOther.toolName) =
        some sampleDefOther := by decide
    rw [hf2] at hfind
    injection hfind with hinj
    rw [← hinj] at hfilt
    exact hfilt

/-! ## Decimal round-trip lemmas -/

theorem string_mk_data (s : String) : String.mk s.data = s := by
  cases s
  rfl

theorem natValOfDigits_append (xs : List Char) (c : Char) :
    natValOfDigits (xs ++ [c]) = natValOfDigits xs * 10 + (c.toNat - 48) := by
  simp [natValOfDigits, List.foldl_append]

theorem digitChar48_toNat {d : Nat} (h : d < 10) : (digitChar48 d).toNat = 48 + d := by
  interval_cases d <;> decide

theorem natVal_of_digitList (ds : List Nat) (h : ∀ d ∈ ds, d < 10) :
    natValOfDigits (ds.reverse.map digitChar48) = Nat.ofDigits 10 ds := by
  induction ds with
  | nil => simp [natValOfDigits, Nat.ofDigits_nil]
  | cons d rest ih =>
    have hd : d < 10 := h d (List.mem_cons_self d rest)
    have hrest : ∀ x ∈ rest, x < 10 := fun x hx => h x (List.mem_cons_of_mem d hx)
    rw [List.reverse_cons, List.map_append]
    simp only [List.map_cons, List.map_nil]
    rw [natValOfDigits_append, ih hrest, Nat.ofDigits_cons, digitChar48_toNat hd]
    omega

theorem natVal_of_repr (n : Nat) :
    natValOfDigits ((Nat.digits 10 n).reverse.map digitChar48) = n := by
  rw [natVal_of_digitList (Nat.digits 10 n)
    (fun d hd => Nat.digits_lt_base (by norm_num) hd), Nat.ofDigits_digits]

theorem intParse_cons (c : Char) (rest : List Char) (hc : ¬ (c = '-')) :
    intParse (String.mk (c :: rest)) = some ((natValOfDigits (c :: rest) : Int)) := by
  unfold intParse
  simp [hc]

theorem intParse_neg (rest : List Char) (h : rest ≠ []) :
    intParse (String.mk ('-' :: rest)) = some (-(natValOfDigits rest : Int)) := by
  unfold intParse
  simp [h]

theorem intParse_natDecimalRepr (n : Nat) :
    intParse (natDecimalRepr n) = some (n : Int) := by
  by_cases h : n = 0
  · subst h
    rfl
  · have hne : Nat.digits 10 n ≠ [] := Nat.digits_ne_nil_iff_ne_zero.mpr h
    have hmapne : (Nat.digits 10 n).reverse.map digitChar48 ≠ [] := by simp [hne]
    obtain ⟨c, rest, hcr⟩ := List.exists_cons_of_ne_nil hmapne
    have hcm : c ∈ (Nat.digits 10 n).reverse.map digitChar48 := by
      rw [hcr]
      exact List.mem_cons_self _ _
    obtain ⟨dd, hdd, hcd⟩ := List.mem_map.mp hcm
    have hd10 : dd < 10 := Nat.digits_lt_base (by norm_num) (List.mem_reverse.mp hdd)
    have hcne : ¬ (c = '-') := by
      intro hcEq
      have h1 := digitChar48_toNat hd10
      rw [hcd, hcEq] at h1
      have h45 : Char.toNat '-' = 45 := rfl
      omega
    have hrepr : natDecimalRepr n = String.mk (c :: rest) := by
      unfold natDecimalRepr
      rw [if_neg h, hcr]
    rw [hrepr, intParse_cons c rest hcne, ← hcr, natVal_of_repr]

theorem intParse_decimalRepr (i : Int) : intParse (decimalRepr i) = some i := by
  unfold decimalRepr
  by_cases h : i < 0
  · rw [if_pos h]
    have hn0 : (-i).toNat ≠ 0 := by omega
    have hrne : (natDecimalRepr (-i).toNat).data ≠ [] := by
      unfold natDecimalRepr
      rw [if_neg hn0]
      simp [Nat.digits_ne_nil_iff_ne_zero.mpr hn0]
    have hrepr : "-" ++ natDecimalRepr (-i).toNat =
        String.mk ('-' :: (natDecimalRepr (-i).toNat).data) := by
      rw [← string_mk_data ("-" ++ natDecimalRepr (-i).toNat), String.data_append]
      rfl
    rw [hrepr, intParse_neg _ hrne]
    have hval : natValOfDigits (natDecimalRepr (-i).toNat).data = (-i).toNat := by
      unfold natDecimalRepr
      rw [if_neg hn0]
      exact natVal_of_repr _
    rw [hval]
    congr 1
    omega
  · rw [if_neg h, intParse_natDecimalRepr]
    congr 1
    omega

/-! ## Replacer and serializer containment lemmas -/

theorem arrMem_replacer {x : JsonValue} {xs : JsonArr} (h : ArrMem x xs) :
    ArrMem (applyBigintReplacer x) (replacerArr xs) := by
  induction h with
  | head => exact ArrMem.head
  | tail _ ih => exact ArrMem.tail ih

theorem objMem_replacer {k : String} {x : JsonValue} {fs : JsonObj} (h : ObjMem k x fs) :
    ObjMem k (applyBigintReplacer x) (replacerObj fs) := by
  induction h with
  | head => exact ObjMem.head
  | tail _ ih => exact ObjMem.tail ih

theorem replacer_contains_str {i : Int} {v : JsonValue} (h : ContainsBigint i v) :
    ContainsStr (decimalRepr i) (applyBigintReplacer v) := by
  induction h with
  | here => exact ContainsStr.here
  | inArr hm _ ih => exact ContainsStr.inArr (arrMem_replacer hm) ih
  | inObj hm _ ih => exact ContainsStr.inObj (objMem_replacer hm) ih

theorem mem_joinSep (sep : String) :
    ∀ (parts : List String) (m : String), m ∈ parts →
      m.data <:+: (joinSep sep parts).data := by
  intro parts
  induction parts with
  | nil =>
    intro m hm
    cases hm
  | cons x rest ih =>
    intro m hm
    cases rest with
    | nil =>
      cases hm with
      | head => exact List.infix_refl _
      | tail _ h2 => cases h2
    | cons y rest2 =>
      cases hm with
      | head =>
        refine ⟨[], (sep ++ joinSep sep (y :: rest2)).data, ?_⟩
        simp [joinSep, String.data_append, List.append_assoc]
      | tail _ h2 =>
        refine (ih _ h2).trans ⟨(x ++ sep).data, [], ?_⟩
        simp [joinSep, String.data_append, List.append_assoc]

theorem arrMem_stringify (d : Nat) {x : JsonValue} {xs : JsonArr} (h : ArrMem x xs) :
    stringifyVal d x ∈ stringifyArr d xs := by
  induction h with
  | head => exact List.mem_cons_self _ _
  | tail _ ih => exact List.mem_cons_of_mem _ ih

theorem objMem_stringify (d : Nat) {k : String} {x : JsonValue} {fs : JsonObj}
    (h : ObjMem k x fs) :
    (jsonQuote k ++ ": " ++ stringifyVal d x) ∈ stringifyObj d fs := by
  induction h with
  | head => exact List.mem_cons_self _ _
  | tail _ ih => exact List.mem_cons_of_mem _ ih

theorem quote_infix_stringify {s : String} {v : JsonValue} (h : ContainsStr s v) :
    ∀ d, (jsonQuote s).data <:+: (stringifyVal d v).data := by
  induction h with
  | here =>
    intro d
    exact List.infix_refl _
  | inArr hm hc ih =>
    rename_i x xs
    clear hc
    intro d
    have hmem := arrMem_stringify (d + 1) hm
    have hjoin := mem_joinSep (",\n" ++ indentOf (d + 1)) (stringifyArr (d + 1) xs) _ hmem
    refine ((ih (d + 1)).trans hjoin).trans ?_
    cases xs with
    | nil => cases hm
    | cons x0 xs0 =>
      refine ⟨("[\n" ++ indentOf (d + 1)).data, ("\n" ++ indentOf d ++ "]").data, ?_⟩
      show ("[\n" ++ indentOf (d + 1)).data ++
          (joinSep (",\n" ++ indentOf (d + 1)) (stringifyArr (d + 1) (.cons x0 xs0))).data ++
          ("\n" ++ indentOf d ++ "]").data =
        (stringifyVal d (.arr (.cons x0 xs0))).data
      simp [stringifyVal, String.data_append, List.append_assoc]
  | inObj hm hc ih =>
    rename_i k x fs
    clear hc
    intro d
    have hmem := objMem_stringify (d + 1) hm
    have hsub : (stringifyVal (d + 1) x).data <:+:
        (jsonQuote k ++ ": " ++ stringifyVal (d + 1) x).data := by
      refine ⟨(jsonQuote k ++ ": ").data, [], ?_⟩
      simp [String.data_append, List.append_assoc]
    have hjoin := mem_joinSep (",\n" ++ indentOf (d + 1)) (stringifyObj (d + 1) fs) _ hmem
    refine (((ih (d + 1)).trans hsub).trans hjoin).trans ?_
    cases fs with
    | nil => cases hm
    | cons k0 x0 fs0 =>
      refine ⟨("\x7b\n" ++ indentOf (d + 1)).data, ("\n" ++ indentOf d ++ "\x7d").data, ?_⟩
      show ("\x7b\n" ++ indentOf (d + 1)).data ++
          (joinSep (",\n" ++ indentOf (d + 1)) (stringifyObj (d + 1) (.cons k0 x0 fs0))).data ++
          ("\n" ++ indentOf d ++ "\x7d").data =
        (stringifyVal d (.obj (.cons k0 x0 fs0))).data
      simp [stringifyVal, String.data_append, List.append_assoc]

/-! ## Decimal strings pass the JSON string escaper unchanged -/

theorem natDecimalRepr_chars (n : Nat) :
    ∀ c ∈ (natDecimalRepr n).data, 48 ≤ c.toNat ∧ c.toNat ≤ 57 := by
  intro c hc
  unfold natDecimalRepr at hc
  by_cases h : n = 0
  · rw [if_pos h] at hc
    have h0 : ("0" : String).data = ['0'] := rfl
    rw [h0] at hc
    have : c = '0' := by simpa using hc
    rw [this]
    decide
  · rw [if_neg h] at hc
    have hc2 : c ∈ (Nat.digits 10 n).reverse.map digitChar48 := hc
    obtain ⟨dd, hdd, hcd⟩ := List.mem_map.mp hc2
    have hd10 : dd < 10 := Nat.digits_lt_base (by norm_num) (List.mem_reverse.mp hdd)
    have ht := digitChar48_toNat hd10
    rw [← hcd, ht]
    omega

theorem decimalRepr_chars (i : Int) :
    ∀ c ∈ (decimalRepr i).data, c.toNat = 45 ∨ (48 ≤ c.toNat ∧ c.toNat ≤ 57) := by
  intro c hc
  unfold decimalRepr at hc
  by_cases h : i < 0
  · rw [if_pos h, String.data_append] at hc
    rcases List.mem_append.mp hc with h1 | h2
    · have : c = '-' := by simpa using h1
      left
      rw [this]
      rfl
    · right
      exact natDecimalRepr_chars _ c h2
  · rw [if_neg h] at hc
    right
    exact natDecimalRepr_chars _ c hc

theorem escChar_plain {c : Char} (h : c.toNat = 45 ∨ (48 ≤ c.toNat ∧ c.toNat ≤ 57)) :
    escChar c = [c] := by
  unfold escChar
  have h1 : ¬ (c = '"') := by intro he; subst he; revert h; decide
  have h2 : ¬ (c = '\\') := by intro he; subst he; revert h; decide
  have h3 : ¬ (c = '\n') := by intro he; subst he; revert h; decide
  have h4 : ¬ (c = '\r') := by intro he; subst he; revert h; decide
  have h5 : ¬ (c = '\t') := by intro he; subst he; revert h; decide
  simp [h1, h2, h3, h4, h5]

theorem flatten_map_plain :
    ∀ (cs : List Char), (∀ c ∈ cs, escChar c = [c]) →
      (cs.map escChar).flatten = cs := by
  intro cs
  induction cs with
  | nil => intro _; rfl
  | cons c rest ih =>
    intro h
    have hc := h c (List.mem_cons_self _ _)
    have hr := ih (fun x hx => h x (List.mem_cons_of_mem _ hx))
    simp [hc, hr]

theorem decimal_unescaped (i : Int) : jsonEscape (decimalRepr i) = decimalRepr i := by
  unfold jsonEscape
  rw [flatten_map_plain _ (fun c hc => escChar_plain (decimalRepr_chars i c hc))]

/-- C7: every BigInt value occurring anywhere in a raw result is turned by
the replacer into its exact decimal string at the same position, that decimal
text occurs verbatim inside the serialized success payload, and the decimal
encoding is lossless (parsing it back returns exactly the original integer),
so values beyond 2 to the 53rd round-trip without precision loss. -/
theorem c7_bigint_round_trip :
    ∀ (v : JsonValue) (i : Int), ContainsBigint i v →
      ContainsStr (decimalRepr i) (applyBigintReplacer v) ∧
      (decimalRepr i).data <:+: (stringifyVal 0 (applyBigintReplacer v)).data ∧
      intParse (decimalRepr i) = some i := by
  intro v i h
  have h1 := replacer_contains_str h
  refine ⟨h1, ?_, intParse_decimalRepr i⟩
  refine List.IsInfix.trans ?_ (quote_infix_stringify h1 0)
  refine ⟨['"'], ['"'], ?_⟩
  show ['"'] ++ (decimalRepr i).data ++ ['"'] = (jsonQuote (decimalRepr i)).data
  simp [jsonQuote, decimal_unescaped, String.data_append]

theorem c7_witness :
    ContainsStr (decimalRepr 9007199254740993)
      (applyBigintReplacer (.obj (.cons "id" (.bigint 9007199254740993) .nil))) ∧
    (decimalRepr 9007199254740993).data <:+:
      (stringifyVal 0
        (applyBigintReplacer (.obj (.cons "id" (.bigint 9007199254740993) .nil)))).data ∧
    intParse (decimalRepr 9007199254740993) = some 9007199254740993 :=
  c7_bigint_round_trip _ 9007199254740993
    (ContainsBigint.inObj ObjMem.head ContainsBigint.here)
